import Mathlib

/-!
Verification development for the paritea repository (fault-tolerance analysis
of ZX-diagram protocols).  The definitions below are shallow embeddings of the
Python sources under src/src/faulttools (the generation present in the
repository); a few helpers referenced by that code but absent from the sources
are modelled from the specification and marked as such in their doc comments.
-/

/-- Pauli operator up to scalar factor, from faulttools/pauli.py (class Pauli). -/
inductive Pauli : Type
  | I : Pauli
  | X : Pauli
  | Z : Pauli
  | Y : Pauli
deriving DecidableEq, Repr

/-- Group multiplication of Pauli operators, translated branch-by-branch from
Pauli.__mul__ in faulttools/pauli.py.  The final branch covers the last elif
(the else raises an unreachable assertion in the source). -/
def Pauli.mul (a b : Pauli) : Pauli :=
  if a = Pauli.I then b
  else if b = Pauli.I then a
  else if a = b then Pauli.I
  else if a ≠ Pauli.X ∧ b ≠ Pauli.X then Pauli.X
  else if a ≠ Pauli.Y ∧ b ≠ Pauli.Y then Pauli.Y
  else Pauli.Z

instance : Mul Pauli := ⟨Pauli.mul⟩

/-- Pauli.flip from faulttools/pauli.py: exchanges X and Z, fixes I and Y. -/
def Pauli.flip (a : Pauli) : Pauli :=
  if a = Pauli.X then Pauli.Z
  else if a = Pauli.Z then Pauli.X
  else a

/-- Pauli.commutes from faulttools/pauli.py: two Paulis commute iff either is
the identity or they are equal. -/
def Pauli.pcommutes (a b : Pauli) : Bool :=
  a = Pauli.I ∨ b = Pauli.I ∨ a = b

theorem Pauli.mul_assoc' (a b c : Pauli) : a * (b * c) = (a * b) * c := by
  cases a <;> cases b <;> cases c <;> decide

theorem Pauli.mul_comm' (a b : Pauli) : a * b = b * a := by
  cases a <;> cases b <;> decide

theorem Pauli.mul_self' (a : Pauli) : a * a = Pauli.I := by
  cases a <;> decide

theorem Pauli.one_mul' (a : Pauli) : Pauli.I * a = a := by
  cases a <;> decide

theorem Pauli.mul_one' (a : Pauli) : a * Pauli.I = a := by
  cases a <;> decide

theorem Pauli.pcommutes_comm (a b : Pauli) : a.pcommutes b = b.pcommutes a := by
  cases a <;> cases b <;> decide

/-- Sparse Pauli string from faulttools/pauli.py (class PauliString): a map
from edge indices to Pauli operators that never stores an identity entry.  The
Python frozendict is embedded as a total function together with its finite
support; the invariant that no identity is stored is the support
characterisation. -/
structure PauliString : Type where
  toFun : ℕ → Pauli
  support : Finset ℕ
  mem_support : ∀ e, e ∈ support ↔ toFun e ≠ Pauli.I

theorem PauliString.ext' {a b : PauliString} (h : ∀ e, a.toFun e = b.toFun e) : a = b := by
  obtain ⟨f, s, hf⟩ := a
  obtain ⟨g, t, hg⟩ := b
  simp only at h
  have hfg : f = g := funext h
  subst hfg
  have hst : s = t := Finset.ext fun e => by rw [hf, hg]
  subst hst
  rfl

theorem PauliString.not_mem_support {a : PauliString} {e : ℕ} (h : e ∉ a.support) :
    a.toFun e = Pauli.I := by
  have := (a.mem_support e).mpr
  by_contra hc
  exact h (this hc)

instance : DecidableEq PauliString := fun a b =>
  decidable_of_iff (∀ e ∈ a.support ∪ b.support, a.toFun e = b.toFun e)
    ⟨fun h => PauliString.ext' fun e => by
      by_cases he : e ∈ a.support ∪ b.support
      · exact h e he
      · rw [Finset.mem_union] at he
        push_neg at he
        rw [PauliString.not_mem_support he.1, PauliString.not_mem_support he.2],
     fun h e _ => by rw [h]⟩

/-- Empty Pauli string (PauliString() in the source): identity everywhere. -/
def PauliString.empty : PauliString where
  toFun := fun _ => Pauli.I
  support := ∅
  mem_support := fun e => by simp

instance : One PauliString := ⟨PauliString.empty⟩

/-- PauliString.__mul__ from faulttools/pauli.py: entrywise Pauli
multiplication over the union of supports, dropping identity results. -/
def PauliString.mul (a b : PauliString) : PauliString where
  toFun := fun e => a.toFun e * b.toFun e
  support := (a.support ∪ b.support).filter fun e => a.toFun e * b.toFun e ≠ Pauli.I
  mem_support := fun e => by
    simp only [Finset.mem_filter, Finset.mem_union, a.mem_support, b.mem_support]
    constructor
    · rintro ⟨_, h⟩
      exact h
    · intro h
      refine ⟨?_, h⟩
      by_contra hc
      push_neg at hc
      rw [hc.1, hc.2] at h
      exact h rfl

instance : Mul PauliString := ⟨PauliString.mul⟩

theorem PauliString.mul_apply (a b : PauliString) (e : ℕ) :
    (a * b).toFun e = a.toFun e * b.toFun e := rfl

theorem PauliString.one_apply (e : ℕ) : (1 : PauliString).toFun e = Pauli.I := rfl

instance : CommMonoid PauliString where
  mul_assoc a b c := PauliString.ext' fun e => by
    rw [PauliString.mul_apply, PauliString.mul_apply, PauliString.mul_apply,
      PauliString.mul_apply, Pauli.mul_assoc']
  one_mul a := PauliString.ext' fun e => by
    rw [PauliString.mul_apply, PauliString.one_apply, Pauli.one_mul']
  mul_one a := PauliString.ext' fun e => by
    rw [PauliString.mul_apply, PauliString.one_apply, Pauli.mul_one']
  mul_comm a b := PauliString.ext' fun e => by
    rw [PauliString.mul_apply, PauliString.mul_apply, Pauli.mul_comm']

/-- PauliString.unary from faulttools/pauli.py: single-entry string, empty when
given the identity. -/
def PauliString.unary (edge : ℕ) (p : Pauli) : PauliString where
  toFun := fun e => if e = edge then p else Pauli.I
  support := if p = Pauli.I then ∅ else {edge}
  mem_support := fun e => by
    by_cases hp : p = Pauli.I <;> by_cases he : e = edge <;> simp [hp, he]

/-- PauliString.restrict from faulttools/pauli.py: keep only the entries whose
edge index lies in the given set. -/
def PauliString.restrict (a : PauliString) (s : Finset ℕ) : PauliString where
  toFun := fun e => if e ∈ s then a.toFun e else Pauli.I
  support := a.support ∩ s
  mem_support := fun e => by
    by_cases he : e ∈ s <;> simp [he, a.mem_support]

/-- PauliString.commutes from faulttools/pauli.py: entrywise commutation over
the shared support (note: this is not the symplectic form; two strings commute
here iff every shared edge commutes locally). -/
def PauliString.commutes (a b : PauliString) : Bool :=
  decide (∀ e ∈ a.support ∩ b.support, (a.toFun e).pcommutes (b.toFun e) = true)

/-- PauliString.is_trivial from faulttools/pauli.py: no stored non-identity
entry, equivalently an empty support. -/
def PauliString.is_trivial (a : PauliString) : Bool :=
  decide (a.support = ∅)

theorem PauliString.commutes_iff (a b : PauliString) :
    a.commutes b = true ↔ ∀ e, (a.toFun e).pcommutes (b.toFun e) = true := by
  rw [PauliString.commutes, decide_eq_true_iff]
  constructor
  · intro h e
    by_cases he : e ∈ a.support ∩ b.support
    · exact h e he
    · rw [Finset.mem_inter] at he
      rcases Decidable.not_and_iff_or_not.mp he with hna | hnb
      · rw [PauliString.not_mem_support hna]
        cases b.toFun e <;> decide
      · rw [PauliString.not_mem_support hnb]
        cases a.toFun e <;> decide
  · intro h e _
    exact h e

theorem PauliString.commutes_symm (a b : PauliString) : a.commutes b = b.commutes a := by
  by_cases h : a.commutes b = true
  · have h2 : b.commutes a = true := by
      rw [PauliString.commutes_iff] at h ⊢
      intro e
      rw [Pauli.pcommutes_comm]
      exact h e
    rw [h, h2]
  · have h2 : ¬ b.commutes a = true := by
      intro hc
      rw [PauliString.commutes_iff] at hc
      exact h ((PauliString.commutes_iff a b).mpr fun e => by
        rw [Pauli.pcommutes_comm]
        exact hc e)
    rw [Bool.not_eq_true] at h h2
    rw [h, h2]

theorem PauliString.support_mul_subset (a b : PauliString) :
    (a * b).support ⊆ a.support ∪ b.support := by
  intro e he
  exact (Finset.mem_filter.mp he).1

theorem PauliString.support_unary_subset (edge : ℕ) (p : Pauli) :
    (PauliString.unary edge p).support ⊆ {edge} := by
  intro e he
  by_cases hp : p = Pauli.I
  · simp [PauliString.unary, hp] at he
  · simpa [PauliString.unary, hp] using he

/-- Fault from faulttools/noise/model.py: diagram edges it flips together with
the detector indices it violates. -/
structure Fault : Type where
  edge_flips : PauliString
  detector_flips : Finset ℕ

instance : DecidableEq Fault := fun f g =>
  decidable_of_iff (f.edge_flips = g.edge_flips ∧ f.detector_flips = g.detector_flips)
    ⟨fun h => by
      obtain ⟨e, d⟩ := f
      obtain ⟨e2, d2⟩ := g
      simp only at h
      rw [h.1, h.2], fun h => by rw [h]; exact ⟨rfl, rfl⟩⟩

/-- Fault.is_trivial from faulttools/noise/model.py. -/
def Fault.is_trivial (f : Fault) : Bool :=
  f.detector_flips = (∅ : Finset ℕ) ∧ f.edge_flips.is_trivial

/-- NoiseModel from faulttools/noise/model.py: a diagram-tied dictionary from
faults to lists of weights.  The Python dict is embedded as an association
list (dict keys are unique; the embedding never creates duplicate keys and
its claims do not depend on uniqueness).  The diagram reference is dropped:
push_out only identity-checks it. -/
structure NoiseModel : Type where
  entries : List (Fault × List ℕ)

/-- NoiseModel.num_faults from faulttools/noise/model.py: total number of
atomic fault entries, i.e. the sum of the weight-list lengths. -/
def NoiseModel.num_faults (m : NoiseModel) : ℕ :=
  (m.entries.map fun e => e.2.length).sum

/-- Insertion step of NoiseModel.transform_faults: extend the weight list of
the (unique) entry with the given key, or append a new entry. -/
def NoiseModel.addEntry : List (Fault × List ℕ) → Fault → List ℕ → List (Fault × List ℕ)
  | [], f, vs => [(f, vs)]
  | e :: rest, f, vs =>
    if e.1 = f then (e.1, e.2 ++ vs) :: rest else e :: NoiseModel.addEntry rest f vs

/-- NoiseModel.transform_faults from faulttools/noise/model.py: map every
fault through the transform, merging weight lists of colliding images. -/
def NoiseModel.transform_faults (m : NoiseModel) (t : Fault → Fault) : NoiseModel :=
  ⟨m.entries.foldl (fun acc e => NoiseModel.addEntry acc (t e.1) e.2) []⟩

/-- FlipOperators from faulttools/flip_operators.py.  The diagram reference is
replaced by its set of boundary edges (the only datum the embedded claims
consult); the region-to-stabiliser flip map becomes a total function on
indices. -/
structure FlipOperators : Type where
  boundaryEdges : Finset ℕ
  stab_flip_ops : List PauliString
  region_flip_ops : List PauliString
  stab_gen_set : List PauliString
  region_gen_set : List PauliString
  region_flip_op_stab_flip_map : ℕ → Finset ℕ

open scoped symmDiff

instance : Std.Commutative (α := Finset ℕ) (· ∆ ·) := ⟨symmDiff_comm⟩

instance : Std.Associative (α := Finset ℕ) (· ∆ ·) := ⟨symmDiff_assoc⟩

/-- Region generators the fault's edge flips anticommute with
(flipped_regions in the transform inside push_out, faulttools/pushout.py). -/
def flippedRegions (F : FlipOperators) (a : PauliString) : Finset ℕ :=
  (Finset.range F.region_gen_set.length).filter
    fun i => ¬ a.commutes (F.region_gen_set.getD i 1) = true

/-- Stabiliser generators the fault's edge flips anticommute with
(orig_flipped_stabs in the source transform). -/
def flippedStabs (F : FlipOperators) (a : PauliString) : Finset ℕ :=
  (Finset.range F.stab_gen_set.length).filter
    fun i => ¬ a.commutes (F.stab_gen_set.getD i 1) = true

/-- Stabilisers a composed region flip operator would flip
(curr_flipped_stabs in the source transform): symmetric-difference
accumulation of the precomputed map over the flipped regions. -/
def currFlippedStabs (F : FlipOperators) (r : Finset ℕ) : Finset ℕ :=
  r.fold (· ∆ ·) (∅ : Finset ℕ) F.region_flip_op_stab_flip_map

/-- Residual boundary string of the source transform: multiply stabiliser
flip operators for missing stabilisers, then for extra stabilisers (the two
Python loops become products over the two set differences; Python set
iteration order is unspecified and the multiplication commutative). -/
def residualFlips (F : FlipOperators) (s c : Finset ℕ) : PauliString :=
  (∏ k in s \ c, F.stab_flip_ops.getD k 1) *
  (∏ k in c \ s, F.stab_flip_ops.getD k 1)

/-- Inner transform of push_out from faulttools/pushout.py: re-express a
fault as flipped detecting regions plus a residual product of stabiliser
flip operators. -/
def pushOutTransform (F : FlipOperators) (fault : Fault) : Fault :=
  ⟨residualFlips F (flippedStabs F fault.edge_flips)
      (currFlippedStabs F (flippedRegions F fault.edge_flips)),
   fault.detector_flips ∪ flippedRegions F fault.edge_flips⟩

/-- push_out from faulttools/pushout.py: transform every fault of the model
(the diagram identity assertion is dropped with the diagram reference). -/
def push_out (m : NoiseModel) (F : FlipOperators) : NoiseModel :=
  m.transform_faults (pushOutTransform F)

theorem NoiseModel.num_faults_addEntry (l : List (Fault × List ℕ)) (f : Fault) (vs : List ℕ) :
    ((NoiseModel.addEntry l f vs).map fun e => e.2.length).sum =
      (l.map fun e => e.2.length).sum + vs.length := by
  induction l with
  | nil => simp [NoiseModel.addEntry]
  | cons e rest ih =>
    by_cases he : e.1 = f
    · simp only [NoiseModel.addEntry, if_pos he, List.map_cons, List.sum_cons,
        List.length_append]
      omega
    · simp only [NoiseModel.addEntry, if_neg he, List.map_cons, List.sum_cons, ih]
      omega

theorem NoiseModel.num_faults_foldl (t : Fault → Fault) (l : List (Fault × List ℕ))
    (init : List (Fault × List ℕ)) :
    ((l.foldl (fun acc e => NoiseModel.addEntry acc (t e.1) e.2) init).map
        fun e => e.2.length).sum =
      (init.map fun e => e.2.length).sum + (l.map fun e => e.2.length).sum := by
  induction l generalizing init with
  | nil => simp
  | cons e rest ih =>
    simp only [List.foldl_cons, List.map_cons, List.sum_cons,
      ih (NoiseModel.addEntry init (t e.1) e.2), NoiseModel.num_faults_addEntry]
    omega

/-- Claim C7: push_out preserves the total number of atomic fault entries as
reported by num_faults, for every noise model and any flip operators: entries
are only relabeled or merged, never created or dropped. -/
theorem c7_push_out_preserves_num_faults (m : NoiseModel) (F : FlipOperators) :
    (push_out m F).num_faults = m.num_faults := by
  show ((m.entries.foldl
      (fun acc e => NoiseModel.addEntry acc (pushOutTransform F e.1) e.2) []).map
        fun e => e.2.length).sum = m.num_faults
  rw [NoiseModel.num_faults_foldl]
  simp [NoiseModel.num_faults]

/-- Modelled from the spec: PauliString.edge_flip is called by _flip_operators
in faulttools/flip_operators.py but is not defined anywhere under src.  Spec
section 4.5 chooses "the anticommuting single-edge flip on that edge", the
opposite type ("X-type flip if p has a Z component; if found Pauli is X, flip
operator uses Z"): an X entry yields a Z flip and a Z or Y entry an X flip. -/
def PauliString.edge_flip (edge : ℕ) (p : Pauli) : PauliString :=
  PauliString.unary edge
    (if p = Pauli.X then Pauli.Z else if p = Pauli.I then Pauli.I else Pauli.X)

/-- Flip-operator selection inside _flip_operators: the source iterates the
restricted generator's entries and keeps the flip of the last one, returning
an assertion failure (none here) when the generator has no entry.  Python
dict iteration order is insertion order; the embedding takes the entry with
the largest edge index as the last one. -/
def chooseFlipOp (curr : PauliString) : Option PauliString :=
  match curr.support.max with
  | none => none
  | some e => some (PauliString.edge_flip e (curr.toFun e))

/-- Main loop of _flip_operators from faulttools/flip_operators.py: one step
per generator index (the current index equals the number of flip operators
already produced); each step derives a flip operator from the restricted
current generator and multiplies it onto every generator whose restriction
anticommutes with it. -/
def flipOpsLoop (restr : PauliString → PauliString) :
    ℕ → List PauliString → List PauliString → Option (List PauliString × List PauliString)
  | 0, gens, fops => some (fops, gens)
  | steps + 1, gens, fops =>
    match chooseFlipOp (restr (gens.getD fops.length 1)) with
    | none => none
    | some fop =>
      let gens2 := (List.range gens.length).map fun j =>
        if j = fops.length ∨ (restr (gens.getD j 1)).commutes fop = true then gens.getD j 1
        else gens.getD j 1 * fop
      flipOpsLoop restr steps gens2 (fops ++ [fop])

/-- Wrapper corresponding to _flip_operators from faulttools/flip_operators.py
(its AssertionError branch becomes none). -/
def _flip_operators (webGens : List PauliString) (restr : PauliString → PauliString) :
    Option (List PauliString × List PauliString) :=
  flipOpsLoop restr webGens.length webGens []

/-- build_flip_operators from faulttools/flip_operators.py: stabiliser flip
operators under the boundary restriction, region flip operators unrestricted,
and the precomputed region-to-stabiliser flip map.  The web generating sets
are parameters (compute_pauli_webs is embedded separately) together with the
boundary edge set of the diagram; the diagram-shape assertion of the source
is about those inputs' provenance and is not representable here. -/
def build_flip_operators (stabs regions : List PauliString) (boundary_edges : Finset ℕ) :
    Option FlipOperators :=
  match _flip_operators stabs (fun w => w.restrict boundary_edges),
      _flip_operators regions id with
  | some (stab_flip_ops, stab_gen_set), some (region_flip_ops, region_gen_set) =>
    some ⟨boundary_edges, stab_flip_ops, region_flip_ops, stab_gen_set, region_gen_set,
      fun i => (Finset.range stab_gen_set.length).filter
        fun j => ¬ (region_flip_ops.getD i 1).commutes (stab_gen_set.getD j 1) = true⟩
  | _, _ => none

theorem chooseFlipOp_support {B : Finset ℕ} {g fop : PauliString}
    (h : chooseFlipOp (g.restrict B) = some fop) : fop.support ⊆ B := by
  unfold chooseFlipOp at h
  cases hl : (g.restrict B).support.max with
  | bot =>
    rw [hl] at h
    exact Option.noConfusion h
  | coe e =>
    rw [hl] at h
    have he : e ∈ (g.restrict B).support := Finset.mem_of_max hl
    have heB : e ∈ B := by
      have : (g.restrict B).support = g.support ∩ B := rfl
      rw [this, Finset.mem_inter] at he
      exact he.2
    have hf : fop = PauliString.edge_flip e ((g.restrict B).toFun e) := by
      injection h with h2
      exact h2.symm
    subst hf
    intro x hx
    have := PauliString.support_unary_subset e
      (if (g.restrict B).toFun e = Pauli.X then Pauli.Z
       else if (g.restrict B).toFun e = Pauli.I then Pauli.I else Pauli.X) hx
    rw [Finset.mem_singleton] at this
    rw [this]
    exact heB

theorem flipOpsLoop_boundary {B : Finset ℕ} :
    ∀ (steps : ℕ) (gens fops fops' gens' : List PauliString),
      (∀ σ ∈ fops, σ.support ⊆ B) →
      flipOpsLoop (fun w => w.restrict B) steps gens fops = some (fops', gens') →
      ∀ σ ∈ fops', σ.support ⊆ B := by
  intro steps
  induction steps with
  | zero =>
    intro gens fops fops' gens' hf h
    unfold flipOpsLoop at h
    obtain ⟨h1, _⟩ := Prod.mk.injEq .. ▸ Option.some.injEq .. ▸ h
    exact h1 ▸ hf
  | succ n ih =>
    intro gens fops fops' gens' hf h
    unfold flipOpsLoop at h
    cases hc : chooseFlipOp ((gens.getD fops.length 1).restrict B) with
    | none => rw [hc] at h; exact absurd h (by simp)
    | some fop =>
      rw [hc] at h
      refine ih _ _ _ _ ?_ h
      intro σ hσ
      rcases List.mem_append.mp hσ with hσ | hσ
      · exact hf σ hσ
      · rw [List.mem_singleton.mp hσ]
        exact chooseFlipOp_support hc

theorem prod_getD_support {B : Finset ℕ} {l : List PauliString}
    (hl : ∀ σ ∈ l, σ.support ⊆ B) (s : Finset ℕ) :
    (∏ k in s, l.getD k 1).support ⊆ B := by
  refine Finset.prod_induction (fun k => l.getD k 1) (fun x => x.support ⊆ B) ?_ ?_ ?_
  · intro x y hx hy
    intro e he
    rcases Finset.mem_union.mp (PauliString.support_mul_subset x y he) with h | h
    · exact hx h
    · exact hy h
  · intro e he
    exact absurd he (Finset.not_mem_empty e)
  · intro k _
    show (l.getD k 1).support ⊆ B
    by_cases hk : k < l.length
    · have : l.getD k 1 ∈ l := by
        rw [List.getD_eq_getElem l 1 hk]
        exact List.getElem_mem hk
      exact hl _ this
    · rw [List.getD_eq_default l 1 (Nat.le_of_not_lt hk)]
      intro e he
      exact absurd he (Finset.not_mem_empty e)

theorem transform_keys {P : Fault → Prop} {t : Fault → Fault}
    (ht : ∀ f, P (t f)) (m : NoiseModel) :
    ∀ e ∈ (m.transform_faults t).entries, P e.1 := by
  show ∀ e ∈ m.entries.foldl (fun acc e => NoiseModel.addEntry acc (t e.1) e.2) [], P e.1
  have haddEntry : ∀ (acc : List (Fault × List ℕ)) (f : Fault) (vs : List ℕ),
      (∀ e ∈ acc, P e.1) → P f → ∀ e ∈ NoiseModel.addEntry acc f vs, P e.1 := by
    intro acc
    induction acc with
    | nil =>
      intro f vs _ hPf e he
      rw [NoiseModel.addEntry] at he
      rw [List.mem_singleton.mp he]
      exact hPf
    | cons x rest ih =>
      intro f vs hacc hPf e he
      rw [NoiseModel.addEntry] at he
      by_cases hx : x.1 = f
      · rw [if_pos hx] at he
        rcases List.mem_cons.mp he with he | he
        · rw [he]
          exact hacc x (List.mem_cons_self ..)
        · exact hacc e (List.mem_cons_of_mem _ he)
      · rw [if_neg hx] at he
        rcases List.mem_cons.mp he with he | he
        · rw [he]
          exact hacc x (List.mem_cons_self ..)
        · exact ih f vs (fun y hy => hacc y (List.mem_cons_of_mem _ hy)) hPf e he
  have hfold : ∀ (l init : List (Fault × List ℕ)), (∀ e ∈ init, P e.1) →
      ∀ e ∈ l.foldl (fun acc e => NoiseModel.addEntry acc (t e.1) e.2) init, P e.1 := by
    intro l
    induction l with
    | nil => intro init hinit e he; exact hinit e he
    | cons x rest ih =>
      intro init hinit e he
      exact ih _ (haddEntry init (t x.1) x.2 hinit (ht x.1)) e he
  exact hfold m.entries [] (by simp)

/-- Claim C2: for flip operators successfully built from any web generating
sets over a boundary edge set, every fault of a pushed-out noise model has
edge flips supported inside the boundary edges. -/
theorem c2_push_out_boundary_support (stabs regions : List PauliString) (B : Finset ℕ)
    (F : FlipOperators) (h : build_flip_operators stabs regions B = some F)
    (m : NoiseModel) :
    ∀ e ∈ (push_out m F).entries, e.1.edge_flips.support ⊆ B := by
  have hstab : ∀ σ ∈ F.stab_flip_ops, σ.support ⊆ B := by
    unfold build_flip_operators at h
    cases h1 : _flip_operators stabs (fun w => w.restrict B) with
    | none => rw [h1] at h; exact absurd h (by simp)
    | some p1 =>
      cases h2 : _flip_operators regions id with
      | none => rw [h1, h2] at h; exact absurd h (by simp)
      | some p2 =>
        rw [h1, h2] at h
        obtain ⟨s1, s2⟩ := p1
        obtain ⟨r1, r2⟩ := p2
        simp only [Option.some.injEq] at h
        have hF : F.stab_flip_ops = s1 := by rw [← h]
        rw [hF]
        exact flipOpsLoop_boundary stabs.length stabs [] s1 s2 (by simp) h1
  show ∀ e ∈ (m.transform_faults (pushOutTransform F)).entries, e.1.edge_flips.support ⊆ B
  refine transform_keys (P := fun f => f.edge_flips.support ⊆ B) ?_ m
  intro f
  show (pushOutTransform F f).edge_flips.support ⊆ B
  intro e he
  rcases Finset.mem_union.mp (PauliString.support_mul_subset _ _ he) with h1 | h1
  · exact prod_getD_support hstab _ h1
  · exact prod_getD_support hstab _ h1

/-- Witness for claim C2: concrete flip operators built from the stabilising
webs XX and ZZ over boundary edges 0 and 1, applied to a one-fault model. -/
theorem c2_push_out_boundary_support_witness :
    ∃ F : FlipOperators,
      build_flip_operators
          [PauliString.unary 0 Pauli.X * PauliString.unary 1 Pauli.X,
           PauliString.unary 0 Pauli.Z * PauliString.unary 1 Pauli.Z] []
          ({0, 1} : Finset ℕ) = some F ∧
      ∀ e ∈ (push_out ⟨[(⟨PauliString.unary 0 Pauli.X, ∅⟩, [1])]⟩ F).entries,
        e.1.edge_flips.support ⊆ ({0, 1} : Finset ℕ) := by
  have hs : (build_flip_operators
      [PauliString.unary 0 Pauli.X * PauliString.unary 1 Pauli.X,
       PauliString.unary 0 Pauli.Z * PauliString.unary 1 Pauli.Z] []
      ({0, 1} : Finset ℕ)).isSome = true := by rfl
  refine ⟨Option.get _ hs, (Option.some_get hs).symm, ?_⟩
  exact c2_push_out_boundary_support _ _ _ _ (Option.some_get hs).symm _

/-- Claim C3 (code divergence): on the generating set consisting of a Z and a
Y on edge 0 (with the identity restriction), _flip_operators completes but
the first flip operator anticommutes with the second returned generator,
violating the claimed orthogonality postcondition. -/
theorem c3_flip_operator_orthogonality_fails :
    ((_flip_operators [PauliString.unary 0 Pauli.Z, PauliString.unary 0 Pauli.Y] id).map
        fun r => (r.1.getD 0 1).commutes (r.2.getD 1 1)) = some false := by decide

theorem Pauli.pcommutes_mul_of_commutes (p q r : Pauli) (hp : p.pcommutes r = true)
    (hq : q.pcommutes r = true) : (p * q).pcommutes r = true := by
  cases p <;> cases q <;> cases r <;> revert hp hq <;> decide

theorem Pauli.pcommutes_mul_of_anticommutes (p q r : Pauli) (hp : p.pcommutes r = false)
    (hq : q.pcommutes r = true) : (p * q).pcommutes r = false := by
  cases p <;> cases q <;> cases r <;> revert hp hq <;> decide

theorem PauliString.one_commutes (c : PauliString) : (1 : PauliString).commutes c = true := by
  rw [PauliString.commutes_iff]
  intro e
  show (Pauli.I).pcommutes (c.toFun e) = true
  cases c.toFun e <;> decide

theorem PauliString.commutes_one (a : PauliString) : a.commutes 1 = true := by
  rw [PauliString.commutes_symm]
  exact PauliString.one_commutes a

theorem PauliString.commutes_mul_of_commutes {a b c : PauliString}
    (ha : a.commutes c = true) (hb : b.commutes c = true) : (a * b).commutes c = true := by
  rw [PauliString.commutes_iff] at ha hb ⊢
  intro e
  rw [PauliString.mul_apply]
  exact Pauli.pcommutes_mul_of_commutes _ _ _ (ha e) (hb e)

theorem PauliString.commutes_mul_of_anticommutes {a b c : PauliString}
    (ha : a.commutes c = false) (hb : b.commutes c = true) : (a * b).commutes c = false := by
  have hae : ∃ e, (a.toFun e).pcommutes (c.toFun e) = false := by
    by_contra hc
    push_neg at hc
    have : a.commutes c = true := (PauliString.commutes_iff a c).mpr fun e => by
      have := hc e
      cases h : (a.toFun e).pcommutes (c.toFun e) with
      | true => rfl
      | false => exact absurd h this
    rw [this] at ha
    exact Bool.noConfusion ha
  obtain ⟨e, he⟩ := hae
  have hb2 := (PauliString.commutes_iff b c).mp hb e
  have hmul : ((a * b).toFun e).pcommutes (c.toFun e) = false := by
    rw [PauliString.mul_apply]
    exact Pauli.pcommutes_mul_of_anticommutes _ _ _ he hb2
  cases h : (a * b).commutes c with
  | false => rfl
  | true =>
    have := (PauliString.commutes_iff (a * b) c).mp h e
    rw [this] at hmul
    exact Bool.noConfusion hmul

theorem PauliString.prod_commutes {σ : ℕ → PauliString} {c : PauliString} {s : Finset ℕ}
    (h : ∀ k ∈ s, (σ k).commutes c = true) : (∏ k in s, σ k).commutes c = true :=
  Finset.prod_induction σ (fun x => x.commutes c = true)
    (fun _ _ hx hy => PauliString.commutes_mul_of_commutes hx hy)
    (PauliString.one_commutes c) h

theorem PauliString.prod_anticommutes {σ : ℕ → PauliString} {c : PauliString} {s : Finset ℕ}
    {j : ℕ} (hj : j ∈ s) (hja : (σ j).commutes c = false)
    (hrest : ∀ k ∈ s, k ≠ j → (σ k).commutes c = true) :
    (∏ k in s, σ k).commutes c = false := by
  rw [← Finset.mul_prod_erase s σ hj]
  refine PauliString.commutes_mul_of_anticommutes hja (PauliString.prod_commutes ?_)
  intro k hk
  exact hrest k (Finset.mem_of_mem_erase hk) (Finset.ne_of_mem_erase hk)

theorem symmDiff_subset_union_nat (a b : Finset ℕ) : a ∆ b ⊆ a ∪ b := by
  intro x hx
  rw [symmDiff_def, Finset.sup_eq_union, Finset.mem_union] at hx
  rcases hx with hx | hx
  · exact Finset.mem_union_left _ (Finset.mem_sdiff.mp hx).1
  · exact Finset.mem_union_right _ (Finset.mem_sdiff.mp hx).1

theorem currFlippedStabs_subset_range {F : FlipOperators} {n : ℕ}
    (hmap : ∀ i, F.region_flip_op_stab_flip_map i ⊆ Finset.range n) (r : Finset ℕ) :
    currFlippedStabs F r ⊆ Finset.range n := by
  unfold currFlippedStabs
  induction r using Finset.induction_on with
  | empty =>
    rw [Finset.fold_empty]
    exact Finset.empty_subset _
  | insert hj ih =>
    rw [Finset.fold_insert hj]
    intro x hx
    rcases Finset.mem_union.mp (symmDiff_subset_union_nat _ _ hx) with hx | hx
    · exact hmap _ hx
    · exact ih hx

theorem flippedStabs_subset_range (F : FlipOperators) (a : PauliString) :
    flippedStabs F a ⊆ Finset.range F.stab_gen_set.length :=
  Finset.filter_subset _ _

theorem residualFlips_eq_prod (F : FlipOperators) (s c : Finset ℕ) :
    residualFlips F s c = ∏ k in s ∆ c, F.stab_flip_ops.getD k 1 := by
  unfold residualFlips
  rw [← Finset.prod_union disjoint_sdiff_sdiff]
  congr 1

/-- Supporting result isolating the push-out idempotence failure: the
transform itself is idempotent on every fault whenever the flip operators
satisfy the documented invariants (spec sections 3 and 4.5): the
region-to-stabiliser flip map targets stabiliser indices, every stabiliser
flip operator commutes with every region generator (stabiliser flips are
boundary-only while detecting regions vanish on the boundary), and each
stabiliser flip operator anticommutes with exactly its own stabiliser
generator.  The failure exhibited below therefore originates in
_flip_operators not establishing the invariant, not in the transform. -/
theorem c6_push_out_idempotent_under_invariants (F : FlipOperators)
    (hmap : ∀ i, F.region_flip_op_stab_flip_map i ⊆ Finset.range F.stab_gen_set.length)
    (hreg : ∀ k ∈ Finset.range F.stab_gen_set.length, ∀ i,
      (F.stab_flip_ops.getD k 1).commutes (F.region_gen_set.getD i 1) = true)
    (hstab : ∀ k ∈ Finset.range F.stab_gen_set.length,
      ∀ j ∈ Finset.range F.stab_gen_set.length,
      ((F.stab_flip_ops.getD k 1).commutes (F.stab_gen_set.getD j 1) = true ↔ k ≠ j))
    (f : Fault) :
    pushOutTransform F (pushOutTransform F f) = pushOutTransform F f := by
  have hK : flippedStabs F f.edge_flips ∆
      currFlippedStabs F (flippedRegions F f.edge_flips) ⊆
      Finset.range F.stab_gen_set.length := by
    intro x hx
    rcases Finset.mem_union.mp (symmDiff_subset_union_nat _ _ hx) with hx | hx
    · exact flippedStabs_subset_range F _ hx
    · exact currFlippedStabs_subset_range hmap _ hx
  have hE1 : (pushOutTransform F f).edge_flips =
      ∏ k in flippedStabs F f.edge_flips ∆
        currFlippedStabs F (flippedRegions F f.edge_flips), F.stab_flip_ops.getD k 1 :=
    residualFlips_eq_prod F _ _
  have hR1 : flippedRegions F (pushOutTransform F f).edge_flips = ∅ := by
    rw [flippedRegions, Finset.filter_eq_empty_iff]
    intro i _
    rw [Decidable.not_not, hE1]
    refine PauliString.prod_commutes ?_
    intro k hk
    exact hreg k (hK hk) i
  have hS1 : flippedStabs F (pushOutTransform F f).edge_flips =
      flippedStabs F f.edge_flips ∆
        currFlippedStabs F (flippedRegions F f.edge_flips) := by
    apply Finset.ext
    intro j
    rw [flippedStabs, Finset.mem_filter]
    constructor
    · rintro ⟨hjr, hjc⟩
      by_contra hjK
      have : (pushOutTransform F f).edge_flips.commutes (F.stab_gen_set.getD j 1) = true := by
        rw [hE1]
        refine PauliString.prod_commutes ?_
        intro k hk
        refine (hstab k (hK hk) j hjr).mpr ?_
        intro hkj
        exact hjK (hkj ▸ hk)
      exact hjc this
    · intro hjK
      refine ⟨hK hjK, ?_⟩
      have : (pushOutTransform F f).edge_flips.commutes (F.stab_gen_set.getD j 1) = false := by
        rw [hE1]
        refine PauliString.prod_anticommutes hjK ?_ ?_
        · have hjj := hstab j (hK hjK) j (hK hjK)
          cases hc : (F.stab_flip_ops.getD j 1).commutes (F.stab_gen_set.getD j 1) with
          | false => rfl
          | true => exact absurd rfl (hjj.mp hc)
        · intro k hk hkj
          exact (hstab k (hK hk) j (hK hjK)).mpr hkj
      rw [this]
      exact Bool.noConfusion
  show (⟨residualFlips F (flippedStabs F (pushOutTransform F f).edge_flips)
      (currFlippedStabs F (flippedRegions F (pushOutTransform F f).edge_flips)),
    (pushOutTransform F f).detector_flips ∪
      flippedRegions F (pushOutTransform F f).edge_flips⟩ : Fault) = pushOutTransform F f
  rw [hR1, hS1]
  have hfold : currFlippedStabs F (∅ : Finset ℕ) = ∅ := Finset.fold_empty
  rw [hfold, Finset.union_empty]
  have hres : residualFlips F (flippedStabs F f.edge_flips ∆
      currFlippedStabs F (flippedRegions F f.edge_flips)) ∅ =
      (pushOutTransform F f).edge_flips := by
    rw [residualFlips_eq_prod, hE1]
    congr 1
    have : (flippedStabs F f.edge_flips ∆
        currFlippedStabs F (flippedRegions F f.edge_flips)) ∆ (∅ : Finset ℕ) =
        flippedStabs F f.edge_flips ∆
          currFlippedStabs F (flippedRegions F f.edge_flips) := by
      simp [symmDiff_def]
    rw [this]
  rw [hres]

/-- Claim C6 (code divergence): on flip operators actually produced by
build_flip_operators — from the stabilising webs Z and Y on the single
boundary edge 0 and no detecting regions — push-out is not idempotent.  The
built operators violate the documented orthogonality invariant (both flip
operators are X on edge 0, the claim C3 slip): the fault Z on edge 0 pushes
out to the boundary-only fault X on edge 0 (flipping stabiliser generator 0
only), but a second push_out finds that X anticommutes with both returned
stabiliser generators and multiplies both flip operators, yielding the empty
fault instead of the identical one. -/
theorem c6_push_out_not_idempotent_on_built_flip_ops :
    ∃ F : FlipOperators,
      build_flip_operators [PauliString.unary 0 Pauli.Z, PauliString.unary 0 Pauli.Y] []
          ({0} : Finset ℕ) = some F ∧
      (pushOutTransform F ⟨PauliString.unary 0 Pauli.Z, ∅⟩).edge_flips.support ⊆
        F.boundaryEdges ∧
      pushOutTransform F (pushOutTransform F ⟨PauliString.unary 0 Pauli.Z, ∅⟩) ≠
        pushOutTransform F ⟨PauliString.unary 0 Pauli.Z, ∅⟩ := by
  refine ⟨(build_flip_operators
      [PauliString.unary 0 Pauli.Z, PauliString.unary 0 Pauli.Y] []
      ({0} : Finset ℕ)).getD ⟨∅, [], [], [], [], fun _ => ∅⟩, by rfl, by decide, ?_⟩
  intro h
  have h1 : (pushOutTransform ((build_flip_operators
      [PauliString.unary 0 Pauli.Z, PauliString.unary 0 Pauli.Y] []
      ({0} : Finset ℕ)).getD ⟨∅, [], [], [], [], fun _ => ∅⟩)
      (pushOutTransform ((build_flip_operators
        [PauliString.unary 0 Pauli.Z, PauliString.unary 0 Pauli.Y] []
        ({0} : Finset ℕ)).getD ⟨∅, [], [], [], [], fun _ => ∅⟩)
        ⟨PauliString.unary 0 Pauli.Z, ∅⟩)).edge_flips.toFun 0 = Pauli.I := by decide
  have h2 : (pushOutTransform ((build_flip_operators
      [PauliString.unary 0 Pauli.Z, PauliString.unary 0 Pauli.Y] []
      ({0} : Finset ℕ)).getD ⟨∅, [], [], [], [], fun _ => ∅⟩)
      ⟨PauliString.unary 0 Pauli.Z, ∅⟩).edge_flips.toFun 0 = Pauli.X := by decide
  rw [h] at h1
  rw [h1] at h2
  exact Pauli.noConfusion h2

/-- Flip operators satisfying the documented invariants, for the concrete
instantiation of the idempotence result above. -/
def c6Fw : FlipOperators :=
  ⟨{0}, [PauliString.unary 0 Pauli.X], [], [PauliString.unary 0 Pauli.Z],
   [PauliString.unary 5 Pauli.Z], fun _ => ∅⟩

/-- Concrete instantiation of the invariant-conditioned idempotence result:
the invariants hold for c6Fw and push-out is idempotent on a concrete
fault. -/
theorem c6_push_out_idempotent_witness :
    ((∀ i, c6Fw.region_flip_op_stab_flip_map i ⊆
        Finset.range c6Fw.stab_gen_set.length) ∧
      (∀ k ∈ Finset.range c6Fw.stab_gen_set.length, ∀ i,
        (c6Fw.stab_flip_ops.getD k 1).commutes (c6Fw.region_gen_set.getD i 1) = true) ∧
      (∀ k ∈ Finset.range c6Fw.stab_gen_set.length,
        ∀ j ∈ Finset.range c6Fw.stab_gen_set.length,
        ((c6Fw.stab_flip_ops.getD k 1).commutes (c6Fw.stab_gen_set.getD j 1) = true ↔ k ≠ j))) ∧
    pushOutTransform c6Fw (pushOutTransform c6Fw ⟨PauliString.unary 0 Pauli.X, ∅⟩) =
      pushOutTransform c6Fw ⟨PauliString.unary 0 Pauli.X, ∅⟩ := by
  have hmap : ∀ i, c6Fw.region_flip_op_stab_flip_map i ⊆
      Finset.range c6Fw.stab_gen_set.length := by
    intro i
    show (∅ : Finset ℕ) ⊆ _
    exact Finset.empty_subset _
  have hreg : ∀ k ∈ Finset.range c6Fw.stab_gen_set.length, ∀ i,
      (c6Fw.stab_flip_ops.getD k 1).commutes (c6Fw.region_gen_set.getD i 1) = true := by
    intro k hk i
    have hk0 : k = 0 := Nat.lt_one_iff.mp (Finset.mem_range.mp hk)
    subst hk0
    match i with
    | 0 => decide
    | i + 1 =>
      show ((c6Fw.stab_flip_ops.getD 0 1).commutes
        ([PauliString.unary 5 Pauli.Z].getD (i + 1) 1)) = true
      have h5 : ([PauliString.unary 5 Pauli.Z].getD (i + 1) 1) = 1 :=
        List.getD_eq_default _ _ (by simp)
      rw [h5]
      exact PauliString.commutes_one _
  have hstab : ∀ k ∈ Finset.range c6Fw.stab_gen_set.length,
      ∀ j ∈ Finset.range c6Fw.stab_gen_set.length,
      ((c6Fw.stab_flip_ops.getD k 1).commutes (c6Fw.stab_gen_set.getD j 1) = true ↔ k ≠ j) := by
    intro k hk j hj
    have hk0 : k = 0 := Nat.lt_one_iff.mp (Finset.mem_range.mp hk)
    have hj0 : j = 0 := Nat.lt_one_iff.mp (Finset.mem_range.mp hj)
    subst hk0
    subst hj0
    constructor
    · intro hc
      exact absurd hc (by decide)
    · intro hc
      exact absurd rfl hc
  exact ⟨⟨hmap, hreg, hstab⟩,
    c6_push_out_idempotent_under_invariants c6Fw hmap hreg hstab _⟩

/-- Python exception kinds raised by the embedded functions. -/
inductive PyError : Type
  | valueError : PyError
  | runtimeError : PyError
deriving DecidableEq, Repr

/-- Atomic (fault, weight) pairs of a noise model, as iterated by the older
NoiseModel.atomic_weights (faulttools/noise_model.py) and by
atomic_faults_with_weight (faulttools/noise/model.py). -/
def NoiseModel.atomic_weights (m : NoiseModel) : List (Fault × ℕ) :=
  m.entries.flatMap fun e => e.2.map fun v => (e.1, v)

/-- Set of weights occurring among a model's atomic faults, as computed at
the top of _is_fault_equivalence (check_fault_equivalence.py lines 91-92). -/
def NoiseModel.weight_set (m : NoiseModel) : Finset ℕ :=
  (m.atomic_weights.map fun p => p.2).toFinset

/-- Guarded entry of _is_fault_equivalence from
faulttools/equivalence/check_fault_equivalence.py: raise ValueError unless
both weight sets are exactly the singleton 1, otherwise compile signatures
and search.  The body after the guard (signature compilation and the
enumeration search; the called _smallest_size_iteration is referenced by
the imports but missing from src) is abstracted as the search parameter; the
guard must prevent from running. -/
def _is_fault_equivalence (search : NoiseModel → NoiseModel → Bool)
    (noise_1 noise_2 : NoiseModel) : Except PyError Bool :=
  if noise_1.weight_set ≠ {1} ∨ noise_2.weight_set ≠ {1} then
    Except.error PyError.valueError
  else
    Except.ok (search noise_1 noise_2)

/-- Claim C10: whenever either model's atomic weight set differs from the
singleton 1, the fault-equivalence check raises ValueError before any
signature compilation or search runs (the result does not depend on the
search at all). -/
theorem c10_weight_guard_raises (search : NoiseModel → NoiseModel → Bool)
    (noise_1 noise_2 : NoiseModel)
    (h : noise_1.weight_set ≠ {1} ∨ noise_2.weight_set ≠ {1}) :
    _is_fault_equivalence search noise_1 noise_2 = Except.error PyError.valueError := by
  unfold _is_fault_equivalence
  rw [if_pos h]

/-- Witness for claim C10: a model carrying weight 2 trips the guard. -/
theorem c10_weight_guard_raises_witness :
    ((⟨[(⟨PauliString.unary 0 Pauli.X, ∅⟩, [2])]⟩ : NoiseModel).weight_set ≠ {1} ∨
      (⟨[]⟩ : NoiseModel).weight_set ≠ {1}) ∧
    _is_fault_equivalence (fun _ _ => true)
        ⟨[(⟨PauliString.unary 0 Pauli.X, ∅⟩, [2])]⟩ ⟨[]⟩ =
      Except.error PyError.valueError := by
  have h : ((⟨[(⟨PauliString.unary 0 Pauli.X, ∅⟩, [2])]⟩ : NoiseModel).weight_set ≠ {1} ∨
      (⟨[]⟩ : NoiseModel).weight_set ≠ {1}) := by
    left
    intro hc
    have h2 : (2 : ℕ) ∈ (⟨[(⟨PauliString.unary 0 Pauli.X, ∅⟩, [2])]⟩ :
        NoiseModel).weight_set := by decide
    rw [hc] at h2
    exact absurd (Finset.mem_singleton.mp h2) (by decide)
  exact ⟨h, c10_weight_guard_raises _ _ _ h⟩

/-- Token of a detector-error-model line: logical observable or detector. -/
inductive DemToken : Type
  | L : ℕ → DemToken
  | D : ℕ → DemToken
deriving DecidableEq, Repr

/-- Token list of one dem line from export_to_stim_dem
(faulttools/export.py lines 59-64): L index for detector-region indices
mapped to a logical, D index otherwise.  Python iterates the frozenset in
unspecified order; the embedding takes ascending detector index order. -/
def demTokens (logmap : ℕ → Option ℕ) (f : Fault) : List DemToken :=
  (f.detector_flips.sort (· ≤ ·)).map fun d =>
    match logmap d with
    | some i => DemToken.L i
    | none => DemToken.D d

/-- Emission loop of export_to_stim_dem (faulttools/export.py lines 53-65):
one error(probability) line per atomic (fault, weight) pair whose fault has a
nonempty detector flip set; the probability is the stored weight itself. -/
def demLines (pushed : NoiseModel) (logmap : ℕ → Option ℕ) : List (ℕ × List DemToken) :=
  pushed.entries.flatMap fun e =>
    if e.1.detector_flips.card = 0 then []
    else e.2.map fun p => (p, demTokens logmap e.1)

/-- One step of the logical loop in _change_basis_for_logicals
(faulttools/export.py lines 22-30), threading (region_gen_set,
region_flip_ops, region_idx_to_logical_map). -/
def changeBasisStep (logicals : List PauliString)
    (st : List PauliString × List PauliString × (ℕ → Option ℕ)) (i_l : ℕ) :
    Except PyError (List PauliString × List PauliString × (ℕ → Option ℕ)) :=
  let rg := st.1
  let rf := st.2.1
  let mp := st.2.2
  let logical := logicals.getD i_l 1
  let flip_indices := (List.range rg.length).filter
    fun i => ¬ (rg.getD i 1).commutes logical = true
  match flip_indices with
  | [] => Except.error PyError.runtimeError
  | i0 :: restIdx =>
    Except.ok
      ((List.range rg.length).map fun j =>
        if j ∈ restIdx then rg.getD j 1 * rg.getD i0 1 else rg.getD j 1,
       (List.range rf.length).map fun j =>
        if j ∈ restIdx then rf.getD j 1 * rf.getD i0 1 else rf.getD j 1,
       fun d => if d = i0 then some i_l else mp d)

/-- _change_basis_for_logicals from faulttools/export.py: raise when more
logicals than regions are given, otherwise make each logical anticommute with
exactly one region generator and record the region-to-logical map, rebuilding
the region-to-stabiliser flip map at the end. -/
def _change_basis_for_logicals (F : FlipOperators) (logicals : List PauliString) :
    Except PyError (FlipOperators × (ℕ → Option ℕ)) := do
  if logicals.length > F.region_gen_set.length then
    Except.error PyError.valueError
  else
    let res ← (List.range logicals.length).foldlM (changeBasisStep logicals)
      (F.region_gen_set, F.region_flip_ops, fun _ => none)
    let region_gen_set := res.1
    let region_flip_ops := res.2.1
    Except.ok
      (⟨F.boundaryEdges, F.stab_flip_ops, region_flip_ops, F.stab_gen_set, region_gen_set,
        fun i => (Finset.range F.stab_gen_set.length).filter
          fun j => ¬ (region_flip_ops.getD i 1).commutes (F.stab_gen_set.getD j 1) = true⟩,
       res.2.2)

/-- export_to_stim_dem from faulttools/export.py: change basis for the given
logicals, push the model out, and emit one line per atomic entry with
detector flips.  The source builds its flip operators from the model's
diagram via build_flip_operators; that construction is embedded separately
and the flip operators are a parameter here.  Lines are (probability, token
list) pairs; the textual rendering is external stim input. -/
def export_to_stim_dem (nm : NoiseModel) (F : FlipOperators)
    (logicals : List PauliString) : Except PyError (List (ℕ × List DemToken)) := do
  let cb ← _change_basis_for_logicals F logicals
  Except.ok (demLines (push_out nm cb.1) cb.2)

/-- Flip operators for the C9 counterexample: one stabiliser (Z on boundary
edge 0, flip operator X there) and no detecting regions. -/
def c9F : FlipOperators :=
  ⟨{0}, [PauliString.unary 0 Pauli.X], [], [PauliString.unary 0 Pauli.Z], [], fun _ => ∅⟩

/-- Noise model for the C9 counterexample: a single X fault on edge 0 with
stored weight 7. -/
def c9nm : NoiseModel := ⟨[(⟨PauliString.unary 0 Pauli.X, ∅⟩, [7])]⟩

/-- Claim C9 (counterexample): with no detecting regions, the pushed-out
model keeps one nontrivial fault (a boundary X flip), yet export emits zero
error lines, because the emission loop skips every fault whose detector flip
set is empty -- so there is not one line per nontrivial pushed-out fault. -/
theorem c9_export_skips_detector_free_fault :
    (export_to_stim_dem c9nm c9F []).toOption = some [] ∧
    ((push_out c9nm c9F).entries.filter fun e => ¬ e.1.is_trivial = true).length = 1 := by
  constructor
  · decide
  · decide

/-- Claim C9 (amended): the emission stage produces exactly one
(probability, tokens) line per atomic (fault, weight) entry whose fault flips
at least one detector; each line carries that entry's stored weight verbatim
and the token list of its fault under the logical map; entries without
detector flips are skipped even when their boundary flips are nontrivial. -/
theorem c9_dem_lines_characterised (pushed : NoiseModel) (logmap : ℕ → Option ℕ) :
    (demLines pushed logmap).length =
      ((pushed.entries.filter fun e => ¬ e.1.detector_flips.card = 0).map
        fun e => e.2.length).sum ∧
    ∀ l ∈ demLines pushed logmap, ∃ e ∈ pushed.entries,
      ¬ e.1.detector_flips.card = 0 ∧ l.1 ∈ e.2 ∧ l.2 = demTokens logmap e.1 := by
  obtain ⟨entries⟩ := pushed
  constructor
  · show (entries.flatMap fun e => if e.1.detector_flips.card = 0 then []
        else e.2.map fun p => (p, demTokens logmap e.1)).length = _
    induction entries with
    | nil => rfl
    | cons e rest ih =>
      rw [List.flatMap_cons, List.length_append, ih, List.filter_cons]
      by_cases hc : e.1.detector_flips.card = 0
      · rw [if_pos hc]
        have hd : (decide ¬ e.1.detector_flips.card = 0) = false := by
          simp [hc]
        rw [hd]
        simp
      · rw [if_neg hc]
        have hd : (decide ¬ e.1.detector_flips.card = 0) = true := by
          simp [hc]
        rw [hd]
        simp
  · intro l hl
    rw [demLines, List.mem_flatMap] at hl
    obtain ⟨e, he, hle⟩ := hl
    by_cases hc : e.1.detector_flips.card = 0
    · rw [if_pos hc] at hle
      exact absurd hle (List.not_mem_nil l)
    · rw [if_neg hc] at hle
      obtain ⟨p, hp, hpl⟩ := List.mem_map.mp hle
      exact ⟨e, he, hc, by rw [← hpl]; exact hp, by rw [← hpl]⟩

/-- Witness for the amended claim C9 at a concrete pushed-out model with one
detector-flipping entry and one detector-free entry. -/
theorem c9_dem_lines_characterised_witness :
    (demLines ⟨[(⟨PauliString.unary 0 Pauli.X, ∅⟩, [3]), (⟨1, {0}⟩, [5])]⟩
        fun _ => none).length =
      (((⟨[(⟨PauliString.unary 0 Pauli.X, ∅⟩, [3]), (⟨1, {0}⟩, [5])]⟩ :
          NoiseModel).entries.filter fun e => ¬ e.1.detector_flips.card = 0).map
        fun e => e.2.length).sum ∧
    ∀ l ∈ demLines ⟨[(⟨PauliString.unary 0 Pauli.X, ∅⟩, [3]), (⟨1, {0}⟩, [5])]⟩
        fun _ => none,
      ∃ e ∈ (⟨[(⟨PauliString.unary 0 Pauli.X, ∅⟩, [3]), (⟨1, {0}⟩, [5])]⟩ :
          NoiseModel).entries,
        ¬ e.1.detector_flips.card = 0 ∧ l.1 ∈ e.2 ∧ l.2 = demTokens (fun _ => none) e.1 :=
  c9_dem_lines_characterised ⟨[(⟨PauliString.unary 0 Pauli.X, ∅⟩, [3]), (⟨1, {0}⟩, [5])]⟩
    fun _ => none

/-- Lookup in an association list standing for a Python dict (first match;
the embedding never creates duplicate keys). -/
def alookup (l : List (ℕ × ℕ)) (k : ℕ) : Option ℕ :=
  (l.find? fun p => p.1 = k).map fun p => p.2

/-- Dict assignment on an association list: update the existing key in place
or append a new mapping, matching Python dict insertion-order semantics. -/
def aset (l : List (ℕ × ℕ)) (k v : ℕ) : List (ℕ × ℕ) :=
  if l.any fun p => p.1 = k then l.map fun p => if p.1 = k then (k, v) else p
  else l ++ [(k, v)]

/-- AtomicFaults from paritea/equivalence/enumeration.py: best weight per
signature, undetectable atomic signatures, and detectable atomic signatures
with their detector information. -/
structure AtomicFaults : Type where
  weight_lookup : List (ℕ × ℕ)
  undetectable : List ℕ
  detectable_with_detectors : List (ℕ × ℕ)

/-- prepare_atomic_faults from paritea/equivalence/enumeration.py. -/
def prepare_atomic_faults (nm_sigs : List (ℕ × ℕ)) (num_detectors : ℕ) : AtomicFaults :=
  let detector_mask := 2 ^ num_detectors - 1
  nm_sigs.foldl
    (fun a sv =>
      let sig := sv.1
      let v := sv.2
      let a1 :=
        if 0 < sig &&& detector_mask then
          if a.detectable_with_detectors.any fun p => p.1 = sig then a
          else ⟨aset a.weight_lookup sig v, a.undetectable,
                a.detectable_with_detectors ++ [(sig, sig &&& detector_mask)]⟩
        else
          if sig ∈ a.undetectable then a
          else ⟨aset a.weight_lookup sig v, a.undetectable ++ [sig],
                a.detectable_with_detectors⟩
      match alookup a1.weight_lookup sig with
      | some w =>
        if w ≤ v then a1
        else ⟨aset a1.weight_lookup sig v, a1.undetectable, a1.detectable_with_detectors⟩
      | none => a1)
    ⟨[], [], []⟩

/-- AtomicFaults.all_iter from paritea/equivalence/enumeration.py:
undetectable signatures followed by the detectable ones. -/
def AtomicFaults.all_iter (a : AtomicFaults) : List ℕ :=
  a.undetectable ++ a.detectable_with_detectors.map fun p => p.1

/-- AtomicFaults.detector_overlapping from paritea/equivalence/enumeration.py:
the lowest-weight detectable atomic signatures whose detector information
overlaps the given one. -/
def AtomicFaults.detector_overlapping (a : AtomicFaults) (detector_info : ℕ) : List ℕ :=
  (a.detectable_with_detectors.foldl
    (fun (acc : Option ℕ × List ℕ) p =>
      if detector_info &&& p.2 = 0 then acc
      else
        match alookup a.weight_lookup p.1 with
        | none => acc
        | some w =>
          match acc.1 with
          | none => (some w, [p.1])
          | some lw =>
            if lw < w then acc
            else if w = lw then (acc.1, acc.2 ++ [p.1])
            else (some w, [p.1]))
    (none, [])).2

/-- Bucketed priority queue of the next-gen strategy: weight to set of
signatures (Python dict of sets, embedded as association/dedup lists). -/
def pqAdd (pq : List (ℕ × List ℕ)) (w sig : ℕ) : List (ℕ × List ℕ) :=
  if pq.any fun b => b.1 = w then
    pq.map fun b => if b.1 = w then (b.1, if sig ∈ b.2 then b.2 else b.2 ++ [sig]) else b
  else pq ++ [(w, [sig])]

/-- pq.pop(w, []) of the next-gen strategy: the bucket at the given weight
(empty when absent) together with the queue without it. -/
def pqPop (pq : List (ℕ × List ℕ)) (w : ℕ) : List ℕ × List (ℕ × List ℕ) :=
  (((pq.find? fun b => b.1 = w).map fun b => b.2).getD [], pq.filter fun b => ¬ b.1 = w)

/-- prepare_priority_queue from paritea/equivalence/enumeration.py. -/
def prepare_priority_queue (a : AtomicFaults) : List (ℕ × List ℕ) :=
  a.all_iter.foldl
    (fun pq sig =>
      match alookup a.weight_lookup sig with
      | some v => pqAdd pq v sig
      | none => pq)
    []

/-- Mutable state of one side of the next-gen search: its priority queue, the
two best-weight lookup tables, its atomic faults, and the undetectable
boundary signatures newly finalised in the current unfold call. -/
structure UnfoldState : Type where
  pq : List (ℕ × List ℕ)
  detectable_lookup : List (ℕ × ℕ)
  undetectable_lookup : List (ℕ × ℕ)
  atomics : AtomicFaults
  generated : List ℕ

/-- Test used for the pruning checks of _next_gen_unfold: the recorded weight
exists and is no worse than the current one. -/
def leIn (o : Option ℕ) (w : ℕ) : Bool :=
  match o with
  | some dw => decide (dw ≤ w)
  | none => false

/-- Expansion part of the signature loop in _next_gen_unfold
(paritea/equivalence/enumeration.py lines 236-248): lower the atomic weight
on improvement, pick the candidate atomics (all undetectable ones, or the
lowest-weight detector-overlapping ones), and enqueue each XOR combination at
its combined weight (same-weight combinations join the current level). -/
def unfoldExpand (w : ℕ) (sig : ℕ) (detectable : Bool) (detector_info : ℕ)
    (s1 : UnfoldState) (nq : List ℕ) : UnfoldState × List ℕ :=
  let s2 :=
    match alookup s1.atomics.weight_lookup sig with
    | some aw =>
      if w < aw then
        { s1 with atomics := ⟨aset s1.atomics.weight_lookup sig w,
            s1.atomics.undetectable, s1.atomics.detectable_with_detectors⟩ }
      else s1
    | none => s1
  let afs := if detectable then s2.atomics.detector_overlapping detector_info
    else s2.atomics.undetectable
  afs.foldl
    (fun (st2 : UnfoldState × List ℕ) atomic_sig =>
      let comb_w := (alookup st2.1.atomics.weight_lookup atomic_sig).getD 0 + w
      if comb_w = w then
        (st2.1, if (atomic_sig ^^^ sig) ∈ st2.2 then st2.2 else st2.2 ++ [atomic_sig ^^^ sig])
      else
        ({ st2.1 with pq := pqAdd st2.1.pq comb_w (atomic_sig ^^^ sig) }, st2.2))
    (s2, nq)

/-- Body of the signature loop of _next_gen_unfold
(paritea/equivalence/enumeration.py lines 221-248): prune signatures whose
recorded weight is already no worse, otherwise record the weight (and the
boundary signature for undetectable ones) and expand. -/
def unfoldSigStep (num_detectors w : ℕ) (st : UnfoldState × List ℕ) (sig : ℕ) :
    UnfoldState × List ℕ :=
  let s := st.1
  let detector_mask := 2 ^ num_detectors - 1
  let detector_info := sig &&& detector_mask
  if 0 < detector_info then
    if leIn (alookup s.detectable_lookup sig) w then st
    else unfoldExpand w sig true detector_info
      { s with detectable_lookup := aset s.detectable_lookup sig w } st.2
  else
    if leIn (alookup s.undetectable_lookup (sig >>> num_detectors)) w then st
    else unfoldExpand w sig false detector_info
      { s with undetectable_lookup := aset s.undetectable_lookup (sig >>> num_detectors) w,
               generated := s.generated ++ [sig >>> num_detectors] } st.2

/-- Drain-to-fixpoint of one weight level in _next_gen_unfold (the inner
while loop over queue and new_queue).  The fuel bounds the number of
same-level drains; the concrete evaluations below use ample fuel. -/
def unfoldLevel (num_detectors w : ℕ) : ℕ → List ℕ → UnfoldState → UnfoldState
  | 0, _, st => st
  | fuel + 1, queue, st =>
    if queue = [] then st
    else
      let res := queue.foldl (unfoldSigStep num_detectors w) (st, [])
      unfoldLevel num_detectors w fuel res.2 res.1

/-- _next_gen_unfold from paritea/equivalence/enumeration.py: pop the current
weight bucket and drain it, returning the state whose generated field holds
the undetectable boundary signatures finalised at this weight. -/
def _next_gen_unfold (num_detectors w fuel : ℕ) (st : UnfoldState) : UnfoldState :=
  let popped := pqPop st.pq w
  unfoldLevel num_detectors w fuel popped.1 { st with pq := popped.2, generated := [] }

/-- Outer weight loop of _next_gen_strategy
(paritea/equivalence/enumeration.py lines 297-344): unfold both sides at the
next weight and return it as soon as one side finalises an undetectable
boundary signature absent from the other side's undetectable lookup. -/
def nextGenLoop (d1_detectors d2_detectors : ℕ) (untl : Option ℕ) :
    ℕ → ℕ → UnfoldState → UnfoldState → Option ℕ
  | 0, _, _, _ => none
  | fuel + 1, w, st1, st2 =>
    if ((!st1.pq.isEmpty || !st2.pq.isEmpty) &&
        (match untl with | none => true | some u => decide (w < u - 1))) = true then
      let st1n := _next_gen_unfold d1_detectors (w + 1) (fuel + 1) st1
      let st2n := _next_gen_unfold d2_detectors (w + 1) (fuel + 1) st2
      if st1n.generated.any fun sig => (alookup st2n.undetectable_lookup sig).isNone then
        some (w + 1)
      else if st2n.generated.any fun sig => (alookup st1n.undetectable_lookup sig).isNone then
        some (w + 1)
      else nextGenLoop d1_detectors d2_detectors untl fuel (w + 1) st1n st2n
    else none

/-- _next_gen_strategy from paritea/equivalence/enumeration.py: signatures
are integers with bits boundary-flips then detector-flips; lookups start from
the trivial signature at weight zero.  The boundary-count parameters of the
source feed only its progress printing and are omitted; fuel bounds the outer
weight loop, with ample values in the evaluations below. -/
def _next_gen_strategy (nm1_sigs nm2_sigs : List (ℕ × ℕ))
    (d1_detectors d2_detectors : ℕ) (untl : Option ℕ) (fuel : ℕ) : Option ℕ :=
  let a1 := prepare_atomic_faults nm1_sigs d1_detectors
  let a2 := prepare_atomic_faults nm2_sigs d2_detectors
  nextGenLoop d1_detectors d2_detectors untl fuel 0
    ⟨prepare_priority_queue a1, [], [(0, 0)], a1, []⟩
    ⟨prepare_priority_queue a2, [], [(0, 0)], a2, []⟩

/-- XOR of a list of signatures. -/
def xorAll (l : List ℕ) : ℕ := l.foldl (fun a b => a ^^^ b) 0

/-- Modelled from the claim's words: every XOR combination of atomic
signatures, as (combined signature, combined weight) pairs.  Sublists
suffice: repeating an atomic signature cancels its bits while only adding
weight, so subsets realise every achievable signature at minimal weight. -/
def subsetSigs (sigs : List (ℕ × ℕ)) : List (ℕ × ℕ) :=
  sigs.sublists.map fun sub => (xorAll (sub.map fun p => p.1), (sub.map fun p => p.2).sum)

/-- Modelled from the claim's words: the minimum combined weight at which the
model reaches an undetectable combination (zero detector bits) with the given
boundary signature, by brute-force enumeration. -/
def bruteUndetectableMin (sigs : List (ℕ × ℕ)) (num_detectors : ℕ) (b : ℕ) : Option ℕ :=
  ((subsetSigs sigs).filterMap fun p =>
    if p.1 &&& (2 ^ num_detectors - 1) = 0 ∧ p.1 >>> num_detectors = b then some p.2
    else none).min?

/-- Modelled from the claim's words: weights at which the first model has an
undetectable combination with no counterpart of equal or lower weight among
the second model's undetectable combinations. -/
def bruteOneDirection (sa : List (ℕ × ℕ)) (da : ℕ) (sb : List (ℕ × ℕ)) (db : ℕ) : List ℕ :=
  (((subsetSigs sa).filterMap fun p =>
      if p.1 &&& (2 ^ da - 1) = 0 then some (p.1 >>> da) else none).dedup).filterMap
    fun b =>
      match bruteUndetectableMin sa da b, bruteUndetectableMin sb db b with
      | some wA, none => some wA
      | some wA, some wB => if wA < wB then some wA else none
      | none, _ => none

/-- Modelled from the claim's words: the minimum combined weight at which one
model can XOR-combine atomic signatures into an undetectable signature with
no counterpart of equal or lower weight among the other model's undetectable
combinations, or none when no such weight exists in either direction. -/
def bruteMinDistinguishing (s1 : List (ℕ × ℕ)) (d1 : ℕ) (s2 : List (ℕ × ℕ)) (d2 : ℕ) :
    Option ℕ :=
  (bruteOneDirection s1 d1 s2 d2 ++ bruteOneDirection s2 d2 s1 d1).min?

/-- Claim C1 (code divergence): on the signature lists nm1 = [3 at weight 8]
with no detector bits and nm2 = [5 at weight 3, 9 at weight 5, 3 at weight 1]
with two detector bits, brute force finds no distinguishing combination at
any weight (both sides reach exactly the boundary signatures 0 and 3, each at
equal weight), yet _next_gen_strategy reports a distinguishing fault at
weight 8: its lowest-weight-overlap pruning never combines the two detectable
signatures 5 and 9, so nm2 never reaches boundary signature 3. -/
theorem c1_next_gen_strategy_diverges_from_brute_force :
    _next_gen_strategy [(3, 8)] [(5, 3), (9, 5), (3, 1)] 0 2 none 100 = some 8 ∧
    bruteMinDistinguishing [(3, 8)] 0 [(5, 3), (9, 5), (3, 1)] 2 = none := by
  constructor
  · decide
  · decide

/-- Node types of a ZX diagram, from faulttools/diagram/diagram.py. -/
inductive NodeType : Type
  | B : NodeType
  | Z : NodeType
  | X : NodeType
  | H : NodeType
deriving DecidableEq, Repr

/-- Open-graph diagram from faulttools/diagram/diagram.py, backed there by a
rustworkx PyGraph.  Nodes carry a type and a rational phase (multiple of pi);
node and edge index lists are kept ascending (rustworkx reports indices in
ascending order) and removed indices are reused most-recent-first as in the
underlying petgraph stable graph. -/
structure Diagram : Type where
  nodes : List (ℕ × NodeType × ℚ)
  edges : List (ℕ × ℕ × ℕ)
  freeNodeIdx : List ℕ
  freeEdgeIdx : List ℕ
  nextNodeIdx : ℕ
  nextEdgeIdx : ℕ

def Diagram.nodeIndices (d : Diagram) : List ℕ := d.nodes.map fun n => n.1

def Diagram.typeOf (d : Diagram) (v : ℕ) : NodeType :=
  ((d.nodes.find? fun n => n.1 = v).map fun n => n.2.1).getD NodeType.B

def Diagram.phase (d : Diagram) (v : ℕ) : ℚ :=
  ((d.nodes.find? fun n => n.1 = v).map fun n => n.2.2).getD 0

/-- Neighbour list, ascending.  rustworkx neighbour order is
implementation-defined; every use below is either on degree-one or degree-two
nodes or otherwise insensitive to the order. -/
def Diagram.neighbors (d : Diagram) (v : ℕ) : List ℕ :=
  (d.nodes.map fun n => n.1).filter fun n =>
    d.edges.any fun e => (e.2.1 = v ∧ e.2.2 = n) ∨ (e.2.1 = n ∧ e.2.2 = v)

def Diagram.edgeList (d : Diagram) : List (ℕ × ℕ) := d.edges.map fun e => (e.2.1, e.2.2)

def Diagram.boundaryNodes (d : Diagram) : List ℕ :=
  (d.nodes.filter fun n => n.2.1 = NodeType.B).map fun n => n.1

def Diagram.hasParallelEdges (d : Diagram) : Bool :=
  d.edges.any fun e => d.edges.any fun e2 =>
    e.1 ≠ e2.1 ∧ ((e.2.1 = e2.2.1 ∧ e.2.2 = e2.2.2) ∨ (e.2.1 = e2.2.2 ∧ e.2.2 = e2.2.1))

def Diagram.edgeIndicesFromEndpoints (d : Diagram) (s t : ℕ) : List ℕ :=
  (d.edges.filter fun e =>
    (e.2.1 = s ∧ e.2.2 = t) ∨ (e.2.1 = t ∧ e.2.2 = s)).map fun e => e.1

def insertSortedNode (l : List (ℕ × NodeType × ℚ)) (x : ℕ × NodeType × ℚ) :
    List (ℕ × NodeType × ℚ) :=
  match l with
  | [] => [x]
  | y :: rest => if y.1 < x.1 then y :: insertSortedNode rest x else x :: y :: rest

def insertSortedEdge (l : List (ℕ × ℕ × ℕ)) (x : ℕ × ℕ × ℕ) : List (ℕ × ℕ × ℕ) :=
  match l with
  | [] => [x]
  | y :: rest => if y.1 < x.1 then y :: insertSortedEdge rest x else x :: y :: rest

def Diagram.addNode (d : Diagram) (t : NodeType) (p : ℚ) : Diagram × ℕ :=
  match d.freeNodeIdx with
  | i :: rest => ({ d with nodes := insertSortedNode d.nodes (i, t, p), freeNodeIdx := rest }, i)
  | [] =>
    let n := d.nextNodeIdx
    ({ d with nodes := insertSortedNode d.nodes (n, t, p), nextNodeIdx := n + 1 }, n)

def Diagram.addEdge (d : Diagram) (a b : ℕ) : Diagram × ℕ :=
  match d.freeEdgeIdx with
  | i :: rest => ({ d with edges := insertSortedEdge d.edges (i, a, b), freeEdgeIdx := rest }, i)
  | [] =>
    let n := d.nextEdgeIdx
    ({ d with edges := insertSortedEdge d.edges (n, a, b), nextEdgeIdx := n + 1 }, n)

def Diagram.addEdges (d : Diagram) (l : List (ℕ × ℕ)) : Diagram :=
  l.foldl (fun dc e => (dc.addEdge e.1 e.2).1) d

/-- remove_edge(a, b): remove the first edge between the endpoints and free
its index for reuse. -/
def Diagram.removeEdge (d : Diagram) (a b : ℕ) : Diagram :=
  match d.edges.find? fun e => (e.2.1 = a ∧ e.2.2 = b) ∨ (e.2.1 = b ∧ e.2.2 = a) with
  | none => d
  | some e =>
    { d with edges := d.edges.filter fun e2 => e2.1 ≠ e.1, freeEdgeIdx := e.1 :: d.freeEdgeIdx }

/-- remove_node: drops the node together with its incident edges, freeing all
their indices (rustworkx removes adjacent edges with the node). -/
def Diagram.removeNode (d : Diagram) (v : ℕ) : Diagram :=
  let removed := d.edges.filter fun e => e.2.1 = v ∨ e.2.2 = v
  { d with nodes := d.nodes.filter fun n => n.1 ≠ v,
           edges := d.edges.filter fun e => ¬ (e.2.1 = v ∨ e.2.2 = v),
           freeNodeIdx := v :: d.freeNodeIdx,
           freeEdgeIdx := (removed.map fun e => e.1) ++ d.freeEdgeIdx }

/-- Phase arithmetic of add_to_phase: (old + phase) modulo 2. -/
def qmod2 (q : ℚ) : ℚ := q - 2 * ((⌊q / 2⌋ : ℤ) : ℚ)

def Diagram.addToPhase (d : Diagram) (v : ℕ) (p : ℚ) : Diagram :=
  { d with nodes := d.nodes.map fun n =>
      if n.1 = v then (n.1, n.2.1, qmod2 (n.2.2 + p)) else n }

/-- _place_node_between from faulttools/web/red_green.py. -/
def placeNodeBetween (d : Diagram) (t : NodeType) (n1 n2 : ℕ) : Diagram × ℕ :=
  let r := d.addNode t 0
  let d2 := r.1.removeEdge n1 n2
  (d2.addEdges [(n1, r.2), (r.2, n2)], r.2)

/-- ExpandedHadamard record from faulttools/web/red_green.py. -/
structure ExpandedHadamard : Type where
  r1_node : ℕ
  r2_node : ℕ
  r3_node : ℕ
  origin : ℕ
  flipped_decomposition : Bool
deriving DecidableEq, Repr

/-- AdditionalNodes record from faulttools/web/red_green.py. -/
structure AdditionalNodes : Type where
  extra_id_nodes : List ℕ
  expanded_hadamards : List ExpandedHadamard
deriving DecidableEq, Repr

/-- _euler_expand_edges from faulttools/web/red_green.py: replace every
H node between v1 and v2 by a three-spider Euler chain of pi/2 phases,
flipping the decomposition colours when both neighbours are X spiders.
H nodes of degree other than two would crash the source; they leave the
diagram unchanged here. -/
def eulerExpandEdges (d : Diagram) : Diagram × List ExpandedHadamard :=
  d.nodeIndices.foldl
    (fun (st : Diagram × List ExpandedHadamard) v =>
      let dc := st.1
      if dc.typeOf v ≠ NodeType.H ∨ (dc.nodes.find? fun n => n.1 = v).isNone then st
      else
        match dc.neighbors v with
        | v1 :: v2 :: [] =>
          let d1 := dc.removeNode v
          let d2 := (d1.addEdge v1 v2).1
          let flip := d1.typeOf v1 = d1.typeOf v2 ∧ d1.typeOf v1 = NodeType.X
          let pat : NodeType × NodeType × NodeType :=
            if flip then (NodeType.X, NodeType.Z, NodeType.X)
            else (NodeType.Z, NodeType.X, NodeType.Z)
          let r2 := placeNodeBetween d2 pat.2.1 v1 v2
          let d3 := r2.1.addToPhase r2.2 (1 / 2)
          let r1 := placeNodeBetween d3 pat.1 v1 r2.2
          let d4 := r1.1.addToPhase r1.2 (1 / 2)
          let r3 := placeNodeBetween d4 pat.2.2 r2.2 v2
          let d5 := r3.1.addToPhase r3.2 (1 / 2)
          (d5, st.2 ++ [⟨r1.2, r2.2, r3.2, v, flip⟩])
        | _ => st)
    (d, [])

/-- _ensure_red_green from faulttools/web/red_green.py: the four insertion
passes, each iterating over a snapshot taken at its start. -/
def ensureRedGreen (d : Diagram) : Diagram × List ℕ :=
  let step1 := d.edgeList.foldl
    (fun (st : Diagram × List ℕ) e =>
      if st.1.typeOf e.1 = st.1.typeOf e.2 then
        let t := if st.1.typeOf e.1 = NodeType.X then NodeType.Z else NodeType.X
        let r := placeNodeBetween st.1 t e.1 e.2
        (r.1, st.2 ++ [r.2])
      else st)
    (d, [])
  let step2 := step1.1.edgeList.foldl
    (fun (st : Diagram × List ℕ) e =>
      if st.1.typeOf e.1 = st.1.typeOf e.2 ∧ st.1.typeOf e.1 = NodeType.B then
        let r := placeNodeBetween st.1 NodeType.X e.1 e.2
        (r.1, st.2 ++ [r.2])
      else st)
    step1
  let boundaries := step2.1.boundaryNodes
  let step3 := boundaries.foldl
    (fun (st : Diagram × List ℕ) b =>
      let nb := (st.1.neighbors b).getD 0 0
      if st.1.typeOf nb = NodeType.X then
        let r := placeNodeBetween st.1 NodeType.Z b nb
        (r.1, st.2 ++ [r.2])
      else st)
    step2
  boundaries.foldl
    (fun (st : Diagram × List ℕ) b =>
      let nb := (st.1.neighbors b).getD 0 0
      let nbB := (st.1.neighbors nb).filter fun v => st.1.typeOf v = NodeType.B
      if st.1.phase nb ≠ 0 ∨ 1 < nbB.length then
        let rx := placeNodeBetween st.1 NodeType.X b nb
        let rz := placeNodeBetween rx.1 NodeType.Z b rx.2
        (rz.1, st.2 ++ [rx.2, rz.2])
      else st)
    step3

/-- to_red_green_form from faulttools/web/red_green.py: Hadamard expansion,
Clifford verification (none abstracts the raised assertion), colour
alternation enforcement. -/
def toRedGreenForm (d : Diagram) : Option (Diagram × AdditionalNodes) :=
  if d.hasParallelEdges then none
  else
    let r := eulerExpandEdges d
    let offending := r.1.nodeIndices.filter fun n =>
      2 < (r.1.phase n).den ∨
        (r.1.typeOf n ≠ NodeType.Z ∧ r.1.typeOf n ≠ NodeType.X ∧ r.1.typeOf n ≠ NodeType.B)
    if 0 < offending.length then none
    else
      let r2 := ensureRedGreen r.1
      some (r2.1, ⟨r2.2, r.2⟩)

/-- GraphOrdering from faulttools/web/firing_assignments.py: canonical node
ordering with boundary-adjacent spiders first, then regular internal
spiders, then pi/2 spiders; z_boundaries maps each boundary's unique
neighbour to the boundary (dict insertion order). -/
structure GraphOrdering : Type where
  graph_to_ordering : List (ℕ × ℕ)
  ordering_to_graph : List (ℕ × ℕ)
  z_boundaries : List (ℕ × ℕ)
  internal_spiders : List ℕ
  pi_2_spiders : List ℕ
deriving DecidableEq, Repr

def GraphOrdering.ordOf (o : GraphOrdering) (v : ℕ) : ℕ :=
  ((o.graph_to_ordering.find? fun p => p.1 = v).map fun p => p.2).getD 0

/-- determine_ordering from faulttools/web/firing_assignments.py.  Python set
differences are modelled in ascending node-index order. -/
def determineOrdering (d : Diagram) : GraphOrdering :=
  let boundaries := d.boundaryNodes
  let z_boundaries := boundaries.foldl
    (fun (acc : List (ℕ × ℕ)) b =>
      let n := (d.neighbors b).getD 0 0
      if acc.any fun p => p.1 = n then acc.map fun p => if p.1 = n then (n, b) else p
      else acc ++ [(n, b)])
    []
  let internal_spiders := d.nodeIndices.filter fun n =>
    n ∉ boundaries ∧ ¬ z_boundaries.any fun p => p.1 = n
  let pi_2_spiders := internal_spiders.filter fun v => (d.phase v).den = 2
  let orderList := (z_boundaries.map fun p => p.1) ++
    internal_spiders.filter (fun v => v ∉ pi_2_spiders) ++ pi_2_spiders
  ⟨orderList.enum.map fun p => (p.2, p.1), orderList.enum, z_boundaries,
   internal_spiders, pi_2_spiders⟩

/-- Dense GF(2) matrix as a list of boolean rows (the source mixes pyzx Mat2
and galois GF2 arrays; both are external GF(2) matrix collaborators). -/
abbrev Mat : Type := List (List Bool)

def matGet (m : Mat) (i j : ℕ) : Bool := ((List.getD m i []).getD j false)

def matSet (m : Mat) (i j : ℕ) (v : Bool) : Mat :=
  List.set m i ((List.getD m i []).set j v)

def matZeros (r c : ℕ) : Mat := List.replicate r (List.replicate c false)

/-- create_firing_verification from faulttools/web/firing_assignments.py:
adjacency of non-boundary nodes, a leading identity block for the boundary
activation variables, and the pi/2 diagonal block toggled. -/
def createFiringVerification (d : Diagram) (o : GraphOrdering) : Mat :=
  let nb := o.z_boundaries.length
  let nn := nb + o.internal_spiders.length
  let adj := d.edgeList.foldl
    (fun m e =>
      if d.typeOf e.1 ≠ NodeType.B ∧ d.typeOf e.2 ≠ NodeType.B then
        let i := o.ordOf e.1
        let j := o.ordOf e.2
        matSet (matSet m i j (!(matGet m i j))) j i (!(matGet (matSet m i j (!(matGet m i j))) j i))
      else m)
    (matZeros nn nn)
  let m1 := (List.range nb).foldl (fun m i => matSet m i i true) (matZeros nn (nn + nb))
  let m2 := (List.range nn).foldl
    (fun m i => (List.range nn).foldl (fun m2 j => matSet m2 i (nb + j) (matGet adj i j)) m)
    m1
  let k := o.pi_2_spiders.length
  (List.range k).foldl
    (fun m t =>
      matSet m (nn - k + t) (nn + nb - k + t) (!(matGet m (nn - k + t) (nn + nb - k + t))))
    m2

def rowXor (r1 r2 : List Bool) : List Bool := r1.zipWith (fun a b => xor a b) r2

def matSwapRows (m : Mat) (i j : ℕ) : Mat :=
  let ri := List.getD m i []
  let rj := List.getD m j []
  List.set (List.set m i rj) j ri

/-- Modelled from the spec: the GF(2) row reduction / null space routines are
external numeric collaborators (galois GF2.row_reduce, GF2.null_space, pyzx
Mat2).  Standard reduced row echelon form with leftmost pivots. -/
def rref (m : Mat) (ncols : ℕ) : Mat :=
  ((List.range ncols).foldl
    (fun (st : Mat × ℕ) col =>
      match ((List.range st.1.length).filter fun r =>
          st.2 ≤ r ∧ matGet st.1 r col = true).head? with
      | none => st
      | some r =>
        let m1 := matSwapRows st.1 st.2 r
        let m2 := (List.range m1.length).foldl
          (fun acc rr =>
            if rr ≠ st.2 ∧ matGet acc rr col = true then
              List.set acc rr (rowXor (List.getD acc rr []) (List.getD acc st.2 []))
            else acc)
          m1
        (m2, st.2 + 1))
    (m, 0)).1

/-- First set column of each nonzero row of a (reduced) matrix, as in the
pivot extraction of _compute (faulttools/web/compute.py lines 43-46). -/
def pivotCols (m : Mat) : List ℕ :=
  m.filterMap fun row => row.findIdx? fun b => b

/-- Modelled from the spec: canonical null space basis of a GF(2) matrix (one
basis vector per free column, identity on the free coordinates), the
behaviour of the external galois GF2.null_space collaborator. -/
def nullSpace (m : Mat) (ncols : ℕ) : Mat :=
  let r := rref m ncols
  let piv := pivotCols r
  let free := (List.range ncols).filter fun c => c ∉ piv
  free.map fun f =>
    (List.range ncols).map fun c =>
      if c = f then true
      else
        match r.find? fun row => (row.findIdx? fun b => b) = some c with
        | some row => row.getD f false
        | none => false

def matMul (a b : Mat) (bcols : ℕ) : Mat :=
  a.map fun arow =>
    (List.range bcols).map fun j =>
      (List.range b.length).foldl (fun acc i => xor acc (arow.getD i false && matGet b i j)) false

/-- Unordered endpoint pair used as a web-prototype key (pyzx upair). -/
def upair (a b : ℕ) : ℕ × ℕ := if a ≤ b then (a, b) else (b, a)

/-- Web prototype: edge-endpoint-pair keyed Pauli assignment (the dict passed
between the firing conversion and AdditionalNodes.remove_from). -/
abbrev WebProto : Type := List ((ℕ × ℕ) × Pauli)

def webGet (w : WebProto) (k : ℕ × ℕ) : Pauli :=
  ((w.find? fun p => p.1 = k).map fun p => p.2).getD Pauli.I

def webSet (w : WebProto) (k : ℕ × ℕ) (v : Pauli) : WebProto :=
  if w.any fun p => p.1 = k then w.map fun p => if p.1 = k then (k, v) else p
  else w ++ [(k, v)]

def webMulAt (w : WebProto) (k : ℕ × ℕ) (v : Pauli) : WebProto :=
  webSet w k (webGet w k * v)

def webPop (w : WebProto) (k : ℕ × ℕ) : WebProto := w.filter fun p => p.1 ≠ k

/-- Modelled from the spec: convert_firing_assignment_to_web_prototype, used
by faulttools/web/compute.py, is missing from src; spec section 4.4
("convert each solution vector into an edge-to-Pauli dictionary via the
spider-firing rules") together with the present
convert_firing_assignment_to_web (faulttools/web/firing_assignments.py)
determine it, keyed by endpoint pairs as consumed by remove_from: a fired Z
spider multiplies X onto its incident edges, a fired X spider multiplies Z,
and an active boundary variable multiplies Z onto its boundary edge. -/
def convertFiringToPrototype (d : Diagram) (o : GraphOrdering) (v : List Bool) : WebProto :=
  let nb := o.z_boundaries.length
  let w1 := o.ordering_to_graph.foldl
    (fun w p =>
      let t := d.typeOf p.2
      if t = NodeType.Z ∧ v.getD (p.1 + nb) false = true then
        (d.neighbors p.2).foldl (fun w2 n => webMulAt w2 (upair p.2 n) Pauli.X) w
      else if t = NodeType.X ∧ v.getD (p.1 + nb) false = true then
        (d.neighbors p.2).foldl (fun w2 n => webMulAt w2 (upair p.2 n) Pauli.Z) w
      else w)
    []
  o.z_boundaries.foldl
    (fun w p =>
      if v.getD (o.ordOf p.1) false = true then webMulAt w (upair p.1 p.2) Pauli.Z else w)
    w1

/-- Adjacency map threaded through AdditionalNodes.remove_from. -/
abbrev AdjMap : Type := List (ℕ × List ℕ)

def adjGet (a : AdjMap) (v : ℕ) : List ℕ :=
  ((a.find? fun p => p.1 = v).map fun p => p.2).getD []

def adjSetList (a : AdjMap) (v : ℕ) (l : List ℕ) : AdjMap :=
  if a.any fun p => p.1 = v then a.map fun p => if p.1 = v then (v, l) else p
  else a ++ [(v, l)]

def adjAdd (a : AdjMap) (v n : ℕ) : AdjMap :=
  let l := adjGet a v
  adjSetList a v (if n ∈ l then l else l ++ [n])

def adjDel (a : AdjMap) (v n : ℕ) : AdjMap :=
  adjSetList a v ((adjGet a v).filter fun x => x ≠ n)

/-- AdditionalNodes._remove_extra_id_node from faulttools/web/red_green.py:
collapse an inserted identity spider, carrying the label of its first edge
over to the merged edge. -/
def removeExtraIdNode (st : AdjMap × WebProto) (idn : ℕ) : AdjMap × WebProto :=
  match adjGet st.1 idn with
  | v1 :: v2 :: _ =>
    let web1 := webSet st.2 (upair v1 v2) (webGet st.2 (upair v1 idn))
    let a1 := adjAdd (adjAdd st.1 v1 v2) v2 v1
    let web2 := webPop (webPop web1 (upair v1 idn)) (upair idn v2)
    let a2 := adjDel (adjDel (adjDel (adjDel a1 v1 idn) idn v1) idn v2) v2 idn
    (a2, web2)
  | _ => st

/-- AdditionalNodes._remove_expanded_hadamard from
faulttools/web/red_green.py: collapse a three-spider Euler chain back into a
single edge through the recorded origin. -/
def removeExpandedHadamard (st : AdjMap × WebProto) (h : ExpandedHadamard) :
    AdjMap × WebProto :=
  let w1 := h.r1_node
  let w2 := h.r2_node
  let w3 := h.r3_node
  match adjGet st.1 w1, adjGet st.1 w3 with
  | a1 :: b1 :: _, a3 :: b3 :: _ =>
    let l := if b1 = w2 then a1 else b1
    let r := if a3 = w2 then b3 else a3
    let webA := webSet st.2 (upair l h.origin) (webGet st.2 (upair l w1))
    let webB := webSet webA (upair h.origin r) (webGet webA (upair r w3))
    let adjA := adjAdd (adjAdd (adjAdd (adjAdd st.1 l h.origin) h.origin l) h.origin r) r h.origin
    let webC := webPop (webPop (webPop (webPop webB (upair l w1)) (upair w1 w2))
      (upair w2 w3)) (upair w3 r)
    let adjB := adjDel (adjDel (adjDel (adjDel (adjDel (adjDel (adjDel (adjDel adjA
      l w1) w1 l) w1 w2) w2 w1) w2 w3) w3 w2) w3 r) r w3
    (adjB, webC)
  | _, _ => st

/-- AdditionalNodes.remove_from from faulttools/web/red_green.py: replay the
recorded insertions in order, rewriting the web onto the original edges. -/
def removeFrom (d : Diagram) (an : AdditionalNodes) (web : WebProto) : WebProto :=
  let adj : AdjMap := d.nodeIndices.map fun n => (n, d.neighbors n)
  let st1 := an.extra_id_nodes.foldl removeExtraIdNode (adj, web)
  (an.expanded_hadamards.foldl removeExpandedHadamard st1).2

/-- Final conversion of _compute (faulttools/web/compute.py lines 25-26): a
prototype keyed by endpoint pairs becomes a PauliString keyed by the original
diagram's edge indices.  Identity entries disappear as in the PauliString
constructor. -/
def protoToPauliString (orig : Diagram) (w : WebProto) : PauliString :=
  w.foldl
    (fun acc p =>
      acc * PauliString.unary ((orig.edgeIndicesFromEndpoints p.1.1 p.1.2).getD 0 0) p.2)
    1

/-- _compute from faulttools/web/compute.py with both flags enabled, i.e.
compute_pauli_webs: red-green normalisation, firing matrix, null space,
stabiliser extraction via boundary-restricted pivots, detecting regions via
the boundary-restricted null space, and reversal onto original edges. -/
def compute_pauli_webs (diagram : Diagram) : Option (List PauliString × List PauliString) :=
  match toRedGreenForm diagram with
  | none => none
  | some (d, additional_nodes) =>
    let o := determineOrdering d
    let m_d := createFiringVerification d o
    let nb := o.z_boundaries.length
    let ncols := nb + o.internal_spiders.length + nb
    let sol_row_basis := nullSpace m_d ncols
    let bselT : Mat := (List.range (nb * 2)).map fun i =>
      sol_row_basis.map fun vrow => vrow.getD i false
    let pivot_cols := pivotCols (rref bselT sol_row_basis.length)
    let stab_sols := pivot_cols.map fun i => List.getD sol_row_basis i []
    let stabs := stab_sols.map fun v =>
      protoToPauliString diagram (removeFrom d additional_nodes (convertFiringToPrototype d o v))
    let bnull := nullSpace bselT sol_row_basis.length
    let region_sols := if bnull.length = 0 then [] else matMul bnull sol_row_basis ncols
    let regions := region_sols.map fun v =>
      protoToPauliString diagram (removeFrom d additional_nodes (convertFiringToPrototype d o v))
    some (stabs, regions)

/-- Diagram of claim C4: two boundary nodes joined through one zero-phase Z
spider (nodes 0, 2 boundaries; node 1 the spider; edges 0 and 1). -/
def bzbDiagram : Diagram :=
  ⟨[(0, NodeType.B, 0), (1, NodeType.Z, 0), (2, NodeType.B, 0)],
   [(0, 0, 1), (1, 1, 2)], [], [], 3, 2⟩

/-- Claim C4: on the two-boundary single-Z-spider diagram, compute_pauli_webs
returns exactly the stabilisers XX and ZZ over the two boundary edges (each
stabiliser observed through its Paulis at edges 0 and 1 and its support size)
and no detecting regions. -/
theorem c4_two_boundary_z_spider_webs :
    ((compute_pauli_webs bzbDiagram).map fun r =>
      (r.1.map fun s => (s.toFun 0, s.toFun 1, s.support.card), r.2.length)) =
    some ([(Pauli.X, Pauli.X, 2), (Pauli.Z, Pauli.Z, 2)], 0) := by
  decide

/-- Claim C8: PauliString multiplication is associative, commutative and
involutive with the empty string as identity, commutation testing is
symmetric, and a product never stores an identity entry (its support filtered
for identity entries is empty). -/
theorem c8_pauli_string_algebra (a b c : PauliString) :
    a * (b * c) = (a * b) * c ∧
    a * b = b * a ∧
    a * a = 1 ∧
    a * 1 = a ∧
    a.commutes b = b.commutes a ∧
    (a * b).support.filter (fun e => (a * b).toFun e = Pauli.I) = ∅ := by
  refine ⟨(mul_assoc a b c).symm, mul_comm a b, ?_, mul_one a,
    PauliString.commutes_symm a b, ?_⟩
  · exact PauliString.ext' fun e => by
      rw [PauliString.mul_apply, Pauli.mul_self', PauliString.one_apply]
  · apply Finset.eq_empty_of_forall_not_mem
    intro e he
    rw [Finset.mem_filter] at he
    exact ((a * b).mem_support e).mp he.1 he.2
